import Mathlib

/-!
# Verification of the Informix LoopBack connector core

Shallow embedding of `lib/informix.js` and `lib/transaction.js` of the
`loopback-connector-informix` repository, together with proofs about the
spec's claims.  JavaScript values are modelled explicitly; machine-level
JavaScript numbers are modelled on their integer fragment.
-/

namespace InformixConn

/-! ## Identifier escaping (`escapeName`, informix.js lines 166-171)

The source reads:

    if (!name) return name;
    name.replace(/["]/g, '""');
    return '"' + name + '"';

The result of `String.prototype.replace` is discarded (JavaScript strings are
immutable), so the returned identifier wraps the *original* name in double
quotes without doubling internal quotes.  The model reproduces that faithfully.
-/

def escapeName (name : String) : String :=
  if name = "" then name
  else "\"" ++ name ++ "\""

/-- The escaping the spec requires: double every internal `"` before wrapping
(the effect the source's discarded `replace` call was meant to have). -/
def specEscapeName (name : String) : String :=
  if name = "" then name
  else "\"" ++ String.mk (name.toList.flatMap (fun c => if c = '"' then ['"', '"'] else [c])) ++ "\""

/-- Does every internal double quote occur doubled (i.e. escaped)?
Scans a character list; a lone `"` that is not immediately followed by a
second `"` is an unescaped internal quote. -/
def quotesDoubled : List Char → Bool
  | [] => true
  | '"' :: '"' :: rest => quotesDoubled rest
  | '"' :: _ => false
  | _ :: rest => quotesDoubled rest

/-- The characters strictly inside the outer wrapping quotes of an escaped
identifier. -/
def interiorChars (s : String) : List Char :=
  (s.toList.drop 1).dropLast

/-! ## Native pagination clause builder (`buildLimit`, informix.js lines 475-488) -/

/-- A JavaScript argument as received by `buildLimit`: a (non-negative integer)
number, a value whose `Number` coercion is `NaN` (e.g. `undefined` from an
absent filter field, or a non-numeric string), or a value coercing to `0`. -/
inductive JsArg where
  | num (n : Nat)
  | nonNumeric
  | absent
deriving DecidableEq

/-- The value `buildLimit` works with after its `isNaN` guards: `isNaN(x)`
replaces the argument by `0`; remaining non-number falsy values also behave
as `0` in the truthiness tests below. -/
def JsArg.coerced : JsArg → Nat
  | .num n => n
  | .nonNumeric => 0
  | .absent => 0

/-- `buildLimit(limit, offset)` from informix.js lines 475-488. -/
def buildLimit (limit offset : JsArg) : String :=
  let l := limit.coerced
  let o := offset.coerced
  if l = 0 ∧ o = 0 then ""
  else if l ≠ 0 ∧ o = 0 then "FETCH FIRST " ++ toString l ++ " ROWS ONLY"
  else if o ≠ 0 ∧ l = 0 then "OFFSET " ++ toString o
  else "LIMIT " ++ toString l ++ " OFFSET " ++ toString o

/-- Modelled from the spec: "no limit/offset → empty; limit only →
`fetch first N rows only`; offset only → `offset N`; both present → a combined
limit+offset clause.  Edge case: non-numeric or absent limit/offset values are
treated as zero."  The combined clause is the source's generic
`LIMIT n OFFSET n` form the spec preserves as-is. -/
def specPaginationClause (limit offset : JsArg) : String :=
  let l := limit.coerced
  let o := offset.coerced
  if l = 0 ∧ o = 0 then ""
  else if o = 0 then "FETCH FIRST " ++ toString l ++ " ROWS ONLY"
  else if l = 0 then "OFFSET " ++ toString o
  else "LIMIT " ++ toString l ++ " OFFSET " ++ toString o

/-! ## Timestamp literal encoding (`dateToInformix`, informix.js lines 173-192) -/

/-- The fields of a JavaScript `Date` as read through its accessors
(`getMonth` is zero-based, `getMilliseconds` is below 1000). -/
structure JsDate where
  year : Nat
  month : Nat
  date : Nat
  hours : Nat
  minutes : Nat
  seconds : Nat
  ms : Nat
deriving DecidableEq

/-- `fillZeros` helper inside `dateToInformix`. -/
def fillZeros (v : Nat) : String :=
  if v < 10 then "0" ++ toString v else toString v

/-- The millisecond padding branch of `dateToInformix`. -/
def informixMs (ms : Nat) : String :=
  if ms < 10 then "00000" ++ toString ms
  else if ms < 100 then "0000" ++ toString ms
  else "000" ++ toString ms

/-- `dateToInformix(val)` from informix.js lines 173-192. -/
def dateToInformix (d : JsDate) : String :=
  toString d.year ++ "-"
    ++ fillZeros (d.month + 1) ++ "-"
    ++ fillZeros d.date ++ "-"
    ++ fillZeros d.hours ++ "."
    ++ fillZeros d.minutes ++ "."
    ++ fillZeros d.seconds ++ "."
    ++ informixMs d.ms

/-- Zero-pad the decimal numeral of `n` on the left to width `w`. -/
def zeroPad (w n : Nat) : String :=
  String.mk (List.replicate (w - (toString n).length) '0') ++ toString n

/-- Modelled from the spec: the engine's fixed-width timestamp literal
`YYYY-MM-DD-HH.MM.SS.ffffff`, all two-digit fields zero-padded, six-digit
zero-padded fractional seconds. -/
def specTimestampLiteral (d : JsDate) : String :=
  toString d.year ++ "-"
    ++ zeroPad 2 (d.month + 1) ++ "-"
    ++ zeroPad 2 d.date ++ "-"
    ++ zeroPad 2 d.hours ++ "."
    ++ zeroPad 2 d.minutes ++ "."
    ++ zeroPad 2 d.seconds ++ "."
    ++ zeroPad 6 d.ms

/-! ## Transaction finalization (`commit` / `rollback`, transaction.js lines 52-73) -/

/-- The dedicated transaction connection, described by the outcomes its native
calls would report. -/
structure TxConn where
  commitErr : Option String
  rollbackErr : Option String
  closeErr : Option String

/-- Driver calls a finalization routine can issue on the connection. -/
inductive TxAction where
  | commitTransaction
  | rollbackTransaction
  | close
deriving DecidableEq

/-- `commit(connection, cb)`: run `connection.commitTransaction`; on error, pass
the error to the callback (the close is skipped); on success, close the
connection and let `close` report to the callback. -/
def commit (c : TxConn) : List TxAction × Option String :=
  match c.commitErr with
  | some e => ([.commitTransaction], some e)
  | none => ([.commitTransaction, .close], c.closeErr)

/-- `rollback(connection, cb)`: same shape with `rollbackTransaction`. -/
def rollback (c : TxConn) : List TxAction × Option String :=
  match c.rollbackErr with
  | some e => ([.rollbackTransaction], some e)
  | none => ([.rollbackTransaction, .close], c.closeErr)

/-! ## `beginTransaction` (transaction.js lines 17-44) -/

/-- Isolation level constants of the external `loopback-connector`
`Transaction` object. -/
def READ_COMMITTED : String := "READ COMMITTED"

def SERIALIZABLE : String := "SERIALIZABLE"

/-- An error value surfaced to a callback: message plus the optional
`statusCode` property the source attaches. -/
structure TxError where
  message : String
  statusCode : Option Nat
deriving DecidableEq

/-- Network operations `beginTransaction` can perform, in order. -/
inductive BeginAction where
  | openConn
  | beginTx
  | runQuery (sql : String)
deriving DecidableEq

/-- Outcomes of the external driver calls made during `beginTransaction`. -/
structure BeginEnv where
  openErr : Option String
  queryErr : Option String

/-- `beginTransaction(isolationLevel, cb)` from transaction.js lines 17-44:
validation failure returns a 400 error before any network action; otherwise a
dedicated connection is opened, a native transaction begun, and (the level
being a non-empty string) the isolation-setting statement issued, whose error
(if any) reaches the callback.  The second component is the callback's error
argument. -/
def beginTransaction (iso : String) (env : BeginEnv) : List BeginAction × Option TxError :=
  if iso ≠ READ_COMMITTED ∧ iso ≠ SERIALIZABLE then
    ([], some ⟨"Invalid isolationLevel: " ++ iso, some 400⟩)
  else
    match env.openErr with
    | some e => ([.openConn], some ⟨e, none⟩)
    | none =>
      ([.openConn, .beginTx, .runQuery ("SET CURRENT ISOLATION " ++ iso)],
        env.queryErr.map (fun e => ⟨e, none⟩))

/-! ## Statement execution (`executeSQL`, informix.js lines 109-157)

The generic SQL arrives as text; when `useLimitOffset` is disabled the method
strips the first `/LIMIT (\d+)/` and `/OFFSET (\d+)/` matches from the text,
keeps their numeric values, dispatches the stripped text, and post-processes
the driver's row-set in the `conn.query` callback. -/

/-- Numeric value of a digit run (the regex capture `(\d+)`). -/
def digitsVal (ds : List Char) : Nat :=
  ds.foldl (fun a c => a * 10 + (c.toNat - 48)) 0

/-- First-match semantics of `sql.match(/KW (\d+)/)` followed by
`sql.replace(/KW (\d+)/, '')`: find the first position where the keyword
(including its trailing space) is followed by at least one digit, take the
maximal digit run, and return its value together with the text with that
match removed. `none` when the pattern does not occur. -/
def stripNumToken (kw : List Char) : List Char → Option (Nat × List Char)
  | [] => none
  | c :: rest =>
    if kw.isPrefixOf (c :: rest) && (((c :: rest).drop kw.length).headD 'x').isDigit then
      let after := (c :: rest).drop kw.length
      some (digitsVal (after.takeWhile Char.isDigit), after.dropWhile Char.isDigit)
    else
      (stripNumToken kw rest).map (fun p => (p.1, c :: p.2))

def limitKW : List Char := ['L', 'I', 'M', 'I', 'T', ' ']

def offsetKW : List Char := ['O', 'F', 'F', 'S', 'E', 'T', ' ']

/-- What `conn.query` hands to the callback in the driver model: an error or
a row-set (`data` is absent on engine errors), plus the more-result-sets
continuation flag. -/
structure DriverResult (Row : Type) where
  err : Option String
  data : Option (List Row)
  more : Bool

/-- The observable outcome of the `conn.query` callback body: the list of
invocations of the caller's callback (in execution order), or a crash (a
thrown `TypeError`, e.g. slicing an absent row-set). -/
inductive ExecOutcome (Row : Type) where
  | calls (cs : List (Option String × Option (List Row)))
  | crash

def ExecOutcome.numCalls : ExecOutcome Row → Nat
  | .calls cs => cs.length
  | .crash => 0

/-- Every callback invocation satisfies `p` (and at least one occurred). -/
def ExecOutcome.eachCall (o : ExecOutcome Row) (p : Option String × Option (List Row) → Prop) : Prop :=
  match o with
  | .crash => False
  | .calls cs => cs ≠ [] ∧ ∀ x ∈ cs, p x

/-- The tail of the `conn.query` callback: when there is no error and `more`
is set, the callback is additionally scheduled through `process.nextTick`
after the unconditional synchronous `callback(err, data)` call. -/
def queryCallbacks (err : Option String) (d : Option (List Row)) (more : Bool) : ExecOutcome Row :=
  if err = none ∧ more then .calls [(err, d), (err, d)] else .calls [(err, d)]

/-- The whole `conn.query` callback body of `executeSQL`: slice
`data.slice(offset, offset + limit)` when either recorded value is nonzero
(crashing if `data` is absent), then invoke the callback(s). -/
def execCallbackBody (limit offset : Nat) (r : DriverResult Row) : ExecOutcome Row :=
  if offset ≠ 0 ∨ limit ≠ 0 then
    match r.data with
    | none => .crash
    | some rows => queryCallbacks r.err (some ((rows.drop offset).take limit)) r.more
  else queryCallbacks r.err r.data r.more

/-- The result of one `executeSQL` call: the SQL text dispatched to the
driver, the recorded limit/offset, and the callback outcome. -/
structure ExecResult (Row : Type) where
  dispatched : List Char
  limit : Nat
  offset : Nat
  outcome : ExecOutcome Row

/-- `executeSQL(sql, params, options, callback)` from informix.js lines
109-157, for a driver interaction that returns `r`. -/
def executeSQL (useLimitOffset : Bool) (sql : List Char) (r : DriverResult Row) : ExecResult Row :=
  if useLimitOffset then
    ⟨sql, 0, 0, execCallbackBody 0 0 r⟩
  else
    match stripNumToken limitKW sql with
    | some (l, sql1) =>
      match stripNumToken offsetKW sql1 with
      | some (o, sql2) => ⟨sql2, l, o, execCallbackBody l o r⟩
      | none => ⟨sql1, l, 0, execCallbackBody l 0 r⟩
    | none =>
      match stripNumToken offsetKW sql with
      | some (o, sql1) => ⟨sql1, 0, o, execCallbackBody 0 o r⟩
      | none => ⟨sql, 0, 0, execCallbackBody 0 0 r⟩

/-- The callback body shared by `update` (informix.js lines 361-365) and
`destroyAll` (lines 468-472): `cb(err, {count: info.length})`.  `info` is
absent when the engine reported an error, in which case the `.length` access
throws (modelled by `none`) and the callback never runs. -/
def updateCallbackBody (err : Option String) (info : Option (List Row)) : Option (Option String × Nat) :=
  info.map (fun rows => (err, rows.length))


/-! ## JavaScript value model and JSON (for the Type Mapper, informix.js lines 173-264)

JavaScript values are modelled by a mutual inductive (`JsValue`); numbers are
modelled on their integer fragment (floating point is out of scope), strings
by Lean strings.  `JSON.stringify` / `JSON.parse` are modelled by an
executable printer/parser pair over character lists; values outside the
modelled JSON fragment (dates, `NaN`) stringify to `none`.  `hostDate src`
stands for a `Date` constructed by the host parser from the string `src`
(its numeric value is host-defined and no claim depends on it). -/

mutual
inductive JsValue where
  | nullV
  | boolV (b : Bool)
  | numV (n : Int)
  | nanV
  | strV (s : String)
  | arrV (xs : JsList)
  | objV (kvs : JsObj)
  | dateV (d : JsDate)
  | hostDate (src : String)
inductive JsList where
  | nil
  | cons (hd : JsValue) (tl : JsList)
inductive JsObj where
  | nil
  | cons (key : String) (val : JsValue) (tl : JsObj)
end

def digitChar : Nat → Char
  | 0 => '0' | 1 => '1' | 2 => '2' | 3 => '3' | 4 => '4'
  | 5 => '5' | 6 => '6' | 7 => '7' | 8 => '8' | _ => '9'

def natToCharsAux : Nat → Nat → List Char
  | 0, _ => []
  | fuel + 1, n => if n < 10 then [digitChar n] else natToCharsAux fuel (n / 10) ++ [digitChar (n % 10)]

def natToChars (n : Nat) : List Char := natToCharsAux (n + 1) n

def intToChars (i : Int) : List Char :=
  if i < 0 then '-' :: natToChars i.natAbs else natToChars i.natAbs

def lbraceC : Char := Char.ofNat 123
def rbraceC : Char := Char.ofNat 125

def hexDigitChar (n : Nat) : Char :=
  if n < 10 then digitChar n
  else if n = 10 then 'a' else if n = 11 then 'b' else if n = 12 then 'c'
  else if n = 13 then 'd' else if n = 14 then 'e' else 'f'

def escapeChar (c : Char) : List Char :=
  if c = '"' then ['\\', '"']
  else if c = '\\' then ['\\', '\\']
  else if c = '\n' then ['\\', 'n']
  else if c = '\r' then ['\\', 'r']
  else if c = '\t' then ['\\', 't']
  else if c.toNat = 8 then ['\\', 'b']
  else if c.toNat = 12 then ['\\', 'f']
  else if c.toNat < 32 then ['\\', 'u', '0', '0', hexDigitChar (c.toNat / 16), hexDigitChar (c.toNat % 16)]
  else [c]

def encodeStrChars (cs : List Char) : List Char := (cs.map escapeChar).flatten

def encodeStr (cs : List Char) : List Char := '"' :: (encodeStrChars cs ++ ['"'])

mutual
def stringifyV : JsValue → Option (List Char)
  | .nullV => some ['n', 'u', 'l', 'l']
  | .boolV true => some ['t', 'r', 'u', 'e']
  | .boolV false => some ['f', 'a', 'l', 's', 'e']
  | .numV i => some (intToChars i)
  | .nanV => none
  | .strV s => some (encodeStr s.toList)
  | .arrV xs => (stringifyL xs).map (fun cs => '[' :: (cs ++ [']']))
  | .objV kvs => (stringifyO kvs).map (fun cs => lbraceC :: (cs ++ [rbraceC]))
  | .dateV _ => none
  | .hostDate _ => none

def stringifyL : JsList → Option (List Char)
  | .nil => some []
  | .cons x .nil => stringifyV x
  | .cons x (.cons y tl) =>
    match stringifyV x, stringifyL (.cons y tl) with
    | some a, some b => some (a ++ ',' :: b)
    | _, _ => none

def stringifyO : JsObj → Option (List Char)
  | .nil => some []
  | .cons k v .nil => (stringifyV v).map (fun b => encodeStr k.toList ++ ':' :: b)
  | .cons k v (.cons k2 v2 tl) =>
    match stringifyV v, stringifyO (.cons k2 v2 tl) with
    | some a, some b => some ((encodeStr k.toList ++ ':' :: a) ++ ',' :: b)
    | _, _ => none
end

def parseNat (s : List Char) : Option (Nat × List Char) :=
  let ds := s.takeWhile Char.isDigit
  if ds.isEmpty then none else some (digitsVal ds, s.dropWhile Char.isDigit)

def hexVal (c : Char) : Option Nat :=
  if c.isDigit then some (c.toNat - 48)
  else if 'a' ≤ c ∧ c ≤ 'f' then some (c.toNat - 87)
  else if 'A' ≤ c ∧ c ≤ 'F' then some (c.toNat - 55)
  else none

def parseStrBody : List Char → Option (List Char × List Char)
  | [] => none
  | c :: rest =>
    if c = '"' then some ([], rest)
    else if c = '\\' then
      match rest with
      | [] => none
      | e :: r2 =>
        if e = '"' then (parseStrBody r2).map (fun p => ('"' :: p.1, p.2))
        else if e = '\\' then (parseStrBody r2).map (fun p => ('\\' :: p.1, p.2))
        else if e = '/' then (parseStrBody r2).map (fun p => ('/' :: p.1, p.2))
        else if e = 'n' then (parseStrBody r2).map (fun p => ('\n' :: p.1, p.2))
        else if e = 'r' then (parseStrBody r2).map (fun p => ('\r' :: p.1, p.2))
        else if e = 't' then (parseStrBody r2).map (fun p => ('\t' :: p.1, p.2))
        else if e = 'b' then (parseStrBody r2).map (fun p => (Char.ofNat 8 :: p.1, p.2))
        else if e = 'f' then (parseStrBody r2).map (fun p => (Char.ofNat 12 :: p.1, p.2))
        else if e = 'u' then
          match r2 with
          | h1 :: h2 :: h3 :: h4 :: r3 =>
            match hexVal h1, hexVal h2, hexVal h3, hexVal h4 with
            | some a, some b, some c2, some d =>
              (parseStrBody r3).map (fun p => (Char.ofNat (((a * 16 + b) * 16 + c2) * 16 + d) :: p.1, p.2))
            | _, _, _, _ => none
          | _ => none
        else none
    else (parseStrBody rest).map (fun p => (c :: p.1, p.2))

mutual
def parseVal : Nat → List Char → Option (JsValue × List Char)
  | 0, _ => none
  | fuel + 1, s =>
    match s with
    | [] => none
    | c :: rest =>
      if c = 'n' then
        match rest with
        | 'u' :: 'l' :: 'l' :: r => some (.nullV, r)
        | _ => none
      else if c = 't' then
        match rest with
        | 'r' :: 'u' :: 'e' :: r => some (.boolV true, r)
        | _ => none
      else if c = 'f' then
        match rest with
        | 'a' :: 'l' :: 's' :: 'e' :: r => some (.boolV false, r)
        | _ => none
      else if c = '"' then
        (parseStrBody rest).map (fun p => (.strV (String.mk p.1), p.2))
      else if c = '[' then
        match rest with
        | [] => none
        | c2 :: r =>
          if c2 = ']' then some (.arrV .nil, r)
          else (parseItems fuel (c2 :: r)).map (fun p => (.arrV p.1, p.2))
      else if c = lbraceC then
        match rest with
        | [] => none
        | c2 :: r =>
          if c2 = rbraceC then some (.objV .nil, r)
          else (parseMembers fuel (c2 :: r)).map (fun p => (.objV p.1, p.2))
      else if c = '-' then
        match parseNat rest with
        | some (n, r) => some (.numV (-(n : Int)), r)
        | none => none
      else if c.isDigit then
        match parseNat (c :: rest) with
        | some (n, r) => some (.numV (n : Int), r)
        | none => none
      else none

def parseItems : Nat → List Char → Option (JsList × List Char)
  | 0, _ => none
  | fuel + 1, s =>
    match parseVal fuel s with
    | none => none
    | some (v, rest) =>
      match rest with
      | [] => none
      | c :: r2 =>
        if c = ',' then (parseItems fuel r2).map (fun p => (.cons v p.1, p.2))
        else if c = ']' then some (.cons v .nil, r2)
        else none

def parseMembers : Nat → List Char → Option (JsObj × List Char)
  | 0, _ => none
  | fuel + 1, s =>
    match s with
    | '"' :: rest =>
      match parseStrBody rest with
      | none => none
      | some (k, r1) =>
        match r1 with
        | ':' :: r2 =>
          match parseVal fuel r2 with
          | none => none
          | some (v, r3) =>
            match r3 with
            | [] => none
            | c :: r4 =>
              if c = ',' then (parseMembers fuel r4).map (fun p => (.cons (String.mk k) v p.1, p.2))
              else if c = rbraceC then some (.cons (String.mk k) v .nil, r4)
              else none
        | _ => none
    | _ => none
end

def jsonParseChars (s : List Char) : Option JsValue :=
  match parseVal (2 * s.length + 2) s with
  | some (v, []) => some v
  | _ => none


def safeHead : List Char → Bool
  | [] => true
  | c :: _ => !c.isDigit

mutual
def sizeV : JsValue → Nat
  | .arrV xs => sizeL xs + 1
  | .objV kvs => sizeO kvs + 1
  | _ => 1
def sizeL : JsList → Nat
  | .nil => 1
  | .cons x tl => sizeV x + sizeL tl + 1
def sizeO : JsObj → Nat
  | .nil => 1
  | .cons _ v tl => sizeV v + sizeO tl + 1
end

/-! ## JavaScript coercions (`String(v)`, `Number(v)`, `Boolean(v)`)

Modelled on the fragment the connector exercises: array-to-string joins
elements with commas (null elements become empty), objects coerce to
"[object Object]", `Number` parses integer numerals (whitespace trimming and
non-decimal forms omitted), dates coerce to host-defined text. -/

mutual
def jsToString : JsValue → String
  | .nullV => "null"
  | .boolV true => "true"
  | .boolV false => "false"
  | .numV i => String.mk (intToChars i)
  | .nanV => "NaN"
  | .strV s => s
  | .arrV xs => jsArrToString xs
  | .objV _ => "[object Object]"
  | .dateV _ => "[object Date]"
  | .hostDate _ => "[object Date]"

def jsArrToString : JsList → String
  | .nil => ""
  | .cons x .nil => jsElemToString x
  | .cons x (.cons y tl) => jsElemToString x ++ "," ++ jsArrToString (.cons y tl)

def jsElemToString : JsValue → String
  | .nullV => ""
  | .boolV true => "true"
  | .boolV false => "false"
  | .numV i => String.mk (intToChars i)
  | .nanV => "NaN"
  | .strV s => s
  | .arrV xs => jsArrToString xs
  | .objV _ => "[object Object]"
  | .dateV _ => "[object Date]"
  | .hostDate _ => "[object Date]"
end

def strToNumber (s : String) : Option Int :=
  match s.toList with
  | [] => some 0
  | '-' :: ds => if ds ≠ [] ∧ ds.all Char.isDigit then some (-(digitsVal ds : Int)) else none
  | ds => if ds.all Char.isDigit then some ((digitsVal ds : Int)) else none

def jsNumber : JsValue → Option Int
  | .nullV => some 0
  | .boolV b => some (if b then 1 else 0)
  | .numV n => some n
  | .nanV => none
  | .strV s => strToNumber s
  | .arrV xs => strToNumber (jsArrToString xs)
  | .objV _ => none
  | .dateV _ => none
  | .hostDate _ => none

def jsToNumberV (v : JsValue) : JsValue :=
  match jsNumber v with
  | some n => .numV n
  | none => .nanV

def jsToBool : JsValue → Bool
  | .nullV => false
  | .boolV b => b
  | .numV n => if n = 0 then false else true
  | .nanV => false
  | .strV s => if s = "" then false else true
  | _ => true

inductive AbstractType where
  | Number | String | Boolean | GeoPoint | Point | List | Object | ModelConstructor
  | JSON | Date | Array
  | otherType
deriving DecidableEq

structure PropDef where
  typeName : AbstractType
  autoIncrement : Bool
  id : Bool

inductive ColValue where
  | psqlDefault
  | nullCol
  | jsVal (v : JsValue)
  | typeErr

def toColumnValue (prop : Option PropDef) (val : JsValue) : ColValue :=
  match val with
  | .nullV =>
    match prop with
    | some p => if p.autoIncrement || p.id then .psqlDefault else .nullCol
    | none => .typeErr
  | _ =>
    match prop with
    | none => .jsVal val
    | some p =>
      match p.typeName with
      | .Array | .Number | .String | .otherType => .jsVal val
      | .Boolean => .jsVal (jsToNumberV val)
      | .GeoPoint | .Point | .List | .Object | .ModelConstructor =>
        match stringifyV val with
        | some cs => .jsVal (.strV (String.mk cs))
        | none => .typeErr
      | .JSON => .jsVal (.strV (jsToString val))
      | .Date =>
        match val with
        | .dateV d => .jsVal (.strV (dateToInformix d))
        | _ => .typeErr

def fromColumnValue (prop : Option PropDef) (val : JsValue) : Option JsValue :=
  match prop with
  | none => some val
  | some p =>
    match val with
    | .nullV => some val
    | _ =>
      match p.typeName with
      | .Number => some (jsToNumberV val)
      | .String => some (.strV (jsToString val))
      | .Date =>
        match val with
        | .strV s => some (.hostDate s)
        | _ => none
      | .Boolean => some (.boolV (jsToBool val))
      | .GeoPoint | .Point | .List | .Array | .Object | .JSON =>
        jsonParseChars (jsToString val).toList
      | _ => some val

def columnRoundTrip (p : PropDef) (v : JsValue) : Option JsValue :=
  match toColumnValue (some p) v with
  | .jsVal c => fromColumnValue (some p) c
  | .nullCol => fromColumnValue (some p) .nullV
  | _ => none

/-! ## Parameterized statements and the `updateOrCreate` MERGE builder
(informix.js lines 375-453)

`PSQL` models the external `ParameterizedSQL` of `loopback-connector` at the
interface the spec gives it: merging concatenates text (separated by a space)
and parameter sequences in order; `join` interleaves a separator.
`MergeField` carries, for the i-th supplied field, `fields.names[i]`,
`fields.properties[i].id`, `columnValues[i]` (sql and params) and the
`buildColumnType` result. -/

structure PSQL where
  sql : String
  params : List String

def PSQL.mergeWith (a : PSQL) (sep : String) (b : PSQL) : PSQL :=
  if a.sql = "" then ⟨b.sql, a.params ++ b.params⟩
  else ⟨a.sql ++ sep ++ b.sql, a.params ++ b.params⟩

def PSQL.mergeSp (a b : PSQL) : PSQL := a.mergeWith " " b

def psqlJoin (l : List PSQL) (sep : String) : PSQL :=
  ⟨String.intercalate sep (l.map PSQL.sql), (l.map PSQL.params).flatten⟩

structure MergeField where
  name : String
  isId : Bool
  valueSql : String
  valueParams : List String
  colType : String

def castList : List MergeField → List PSQL
  | [] => []
  | [f] => [⟨"CAST (" ++ f.valueSql ++ " AS " ++ f.colType ++ ")", f.valueParams⟩]
  | f :: g :: rest =>
    ⟨"CAST (" ++ f.valueSql ++ " AS " ++ f.colType ++ "),", f.valueParams⟩ :: castList (g :: rest)

def updateSetList : List MergeField → List PSQL
  | [] => []
  | f :: rest =>
    if f.isId then updateSetList rest
    else ⟨f.name ++ "=(" ++ f.valueSql ++ ")", f.valueParams⟩ :: updateSetList rest

def updateOrCreateStmt (schema tableEsc id : String) (allCols : List String)
    (fields : List MergeField) (defaultValues : String) : PSQL :=
  let base : PSQL := ⟨"MERGE INTO " ++ schema ++ "." ++ tableEsc, []⟩
  let names := String.intercalate "," (fields.map MergeField.name)
  let beforeUpdate :=
    if fields.length ≠ 0 then
      let s1 := base.mergeSp ⟨"AS MT(", []⟩
      let s2 := s1.mergeSp (psqlJoin (allCols.map (fun c => ⟨c, []⟩)) ",")
      let s3 := s2.mergeSp ⟨")", []⟩
      let s4 := s3.mergeSp ⟨"USING (SELECT * FROM TABLE( VALUES(", []⟩
      let s5 := s4.mergeSp (psqlJoin (castList fields) " ")
      let s6 := s5.mergeSp ⟨"))) AS VT(" ++ names ++ ")", []⟩
      let s7 := s6.mergeSp ⟨"ON", []⟩
      let s8 := s7.mergeSp ⟨"(MT.\"" ++ id ++ "\" = VT.\"" ++ id ++ "\")", []⟩
      let s9 := s8.mergeSp ⟨"WHEN NOT MATCHED THEN INSERT (" ++ names ++ ")", []⟩
      let vals := psqlJoin (fields.map (fun f => ⟨f.valueSql, f.valueParams⟩)) ","
      s9.mergeSp ⟨"VALUES(" ++ vals.sql ++ ")", vals.params⟩
    else base.mergeSp ⟨defaultValues, []⟩
  (beforeUpdate.mergeSp ⟨"WHEN MATCHED THEN UPDATE SET", []⟩).mergeSp
    (psqlJoin (updateSetList fields) ",")

/-! ## Padding helper lemmas -/

theorem fillZeros_pad2_fin (m : Fin 100) :
    fillZeros m.val = zeroPad 2 m.val ∧ (zeroPad 2 m.val).length = 2 := by
  revert m; decide

set_option maxHeartbeats 1000000 in
set_option maxRecDepth 10000 in
theorem informixMs_pad6_fin (m : Fin 1000) :
    informixMs m.val = zeroPad 6 m.val ∧ (zeroPad 6 m.val).length = 6 := by
  revert m; decide

theorem fillZeros_pad2 {n : Nat} (h : n < 100) :
    fillZeros n = zeroPad 2 n ∧ (zeroPad 2 n).length = 2 :=
  fillZeros_pad2_fin ⟨n, h⟩

theorem informixMs_pad6 {n : Nat} (h : n < 1000) :
    informixMs n = zeroPad 6 n ∧ (zeroPad 6 n).length = 6 :=
  informixMs_pad6_fin ⟨n, h⟩

/-! ## Claim theorems -/

/-- C1: the claim states that `escapeName` doubles every internal double quote
before wrapping.  The source calls `name.replace(/["]/g, '""')` but discards
its result, so on the identifier `a"b` the escaped identifier still contains a
lone internal quote; the spec-required escaping (`specEscapeName`) would not.
This evidences the code bug the spec flags as a required fix. -/
theorem escapeName_quote_bug :
    escapeName "a\"b" = "\"a\"b\""
    ∧ quotesDoubled (interiorChars (escapeName "a\"b")) = false
    ∧ specEscapeName "a\"b" = "\"a\"\"b\""
    ∧ quotesDoubled (interiorChars (specEscapeName "a\"b")) = true := by
  decide

/-- C4: `commit` and `rollback` issue the native finalization call first; if it
succeeds the dedicated connection is closed and the close outcome reaches the
callback, and if it fails the error reaches the callback unmasked with the
close skipped. -/
theorem commit_rollback_finalize_first (c : TxConn) :
    ((commit c).1.head? = some .commitTransaction)
    ∧ (c.commitErr = none → commit c = ([.commitTransaction, .close], c.closeErr))
    ∧ (∀ e, c.commitErr = some e →
        commit c = ([.commitTransaction], some e) ∧ .close ∉ (commit c).1)
    ∧ ((rollback c).1.head? = some .rollbackTransaction)
    ∧ (c.rollbackErr = none → rollback c = ([.rollbackTransaction, .close], c.closeErr))
    ∧ (∀ e, c.rollbackErr = some e →
        rollback c = ([.rollbackTransaction], some e) ∧ .close ∉ (rollback c).1) := by
  obtain ⟨ce, re, cl⟩ := c
  cases ce <;> cases re <;>
    simp [commit, rollback]

/-- Witness for C4: a connection whose native commit fails with "boom" reports
exactly that error and never closes. -/
theorem commit_rollback_finalize_first_witness :
    commit ⟨some "boom", none, none⟩ = ([.commitTransaction], some "boom")
    ∧ TxAction.close ∉ (commit ⟨some "boom", none, none⟩).1 :=
  (commit_rollback_finalize_first ⟨some "boom", none, none⟩).2.2.1 "boom" rfl

/-- C5: any isolation level other than READ COMMITTED / SERIALIZABLE is
rejected with a `statusCode: 400` error and an empty action trace — in
particular before any connection is opened or network operation performed. -/
theorem beginTransaction_rejects_invalid_isolation (iso : String) (env : BeginEnv)
    (h1 : iso ≠ READ_COMMITTED) (h2 : iso ≠ SERIALIZABLE) :
    beginTransaction iso env
      = ([], some ⟨"Invalid isolationLevel: " ++ iso, some 400⟩) := by
  unfold beginTransaction
  simp [h1, h2]

/-- Witness for C5: the literal isolation level "invalid" yields the 400 error
with no driver action. -/
theorem beginTransaction_rejects_invalid_isolation_witness :
    beginTransaction "invalid" ⟨none, none⟩
      = ([], some ⟨"Invalid isolationLevel: invalid", some 400⟩) :=
  beginTransaction_rejects_invalid_isolation "invalid" ⟨none, none⟩
    (by decide) (by decide)

/-- C7: `buildLimit` agrees with the spec's clause description on every input:
empty when both effective values are zero, `FETCH FIRST <limit> ROWS ONLY`
when only limit is nonzero, `OFFSET <offset>` when only offset is nonzero, the
combined clause when both are nonzero, and non-numeric or absent inputs are
treated as zero. -/
theorem buildLimit_matches_spec (limit offset : JsArg) :
    buildLimit limit offset = specPaginationClause limit offset := by
  unfold buildLimit specPaginationClause
  by_cases hl : limit.coerced = 0 <;> by_cases ho : offset.coerced = 0 <;>
    simp [hl, ho]

/-- C8: `dateToInformix` emits the fixed-width literal
`YYYY-MM-DD-HH.MM.SS.ffffff`: it equals the spec-side literal built from
two-digit zero-padded month/day/hour/minute/second fields and a six-digit
zero-padded fraction, and those widths are exact. -/
theorem dateToInformix_fixed_width (d : JsDate)
    (hm : d.month < 12) (hd : d.date < 100) (hh : d.hours < 100)
    (hmin : d.minutes < 100) (hs : d.seconds < 100) (hms : d.ms < 1000) :
    dateToInformix d = specTimestampLiteral d
    ∧ (zeroPad 2 (d.month + 1)).length = 2
    ∧ (zeroPad 2 d.date).length = 2
    ∧ (zeroPad 2 d.hours).length = 2
    ∧ (zeroPad 2 d.minutes).length = 2
    ∧ (zeroPad 2 d.seconds).length = 2
    ∧ (zeroPad 6 d.ms).length = 6 := by
  have h1 := fillZeros_pad2 (n := d.month + 1) (by omega)
  have h2 := fillZeros_pad2 hd
  have h3 := fillZeros_pad2 hh
  have h4 := fillZeros_pad2 hmin
  have h5 := fillZeros_pad2 hs
  have h6 := informixMs_pad6 hms
  refine ⟨?_, h1.2, h2.2, h3.2, h4.2, h5.2, h6.2⟩
  unfold dateToInformix specTimestampLiteral
  rw [h1.1, h2.1, h3.1, h4.1, h5.1, h6.1]

/-- Witness for C8: the date 2024-05-07 03:05:09.042 (month index 4) encodes
to the fixed-width literal. -/
theorem dateToInformix_fixed_width_witness :
    dateToInformix ⟨2024, 4, 7, 3, 5, 9, 42⟩
      = specTimestampLiteral ⟨2024, 4, 7, 3, 5, 9, 42⟩ :=
  (dateToInformix_fixed_width ⟨2024, 4, 7, 3, 5, 9, 42⟩
    (by decide) (by decide) (by decide) (by decide) (by decide) (by decide)).1

/-- C2: the claim states the caller's callback runs exactly once with either
an error or a well-formed result.  The code violates this: on a successful
query with pending result sets (`more` truthy) the callback is invoked twice
(synchronously and again via `process.nextTick`), and the `update` /
`destroyAll` callbacks dereference `info.length` when the engine reported an
error and `info` is absent, throwing instead of delivering the error. -/
theorem executeSQL_double_callback :
    (executeSQL false "SELECT * FROM T".toList
        (⟨none, some [(7 : Nat)], true⟩ : DriverResult Nat)).outcome
      = .calls [(none, some [7]), (none, some [7])]
    ∧ (executeSQL false "SELECT * FROM T".toList
        (⟨none, some [(7 : Nat)], true⟩ : DriverResult Nat)).outcome.numCalls = 2
    ∧ updateCallbackBody (some "engine failure") (none : Option (List Nat)) = none := by
  constructor
  · rfl
  · constructor
    · rfl
    · rfl

/-- C6 counterexample: with client-side pagination active and the text
containing the token `LIMIT 0`, the recorded limit and offset are both zero
and the driver's row-set is returned whole, whereas the claimed half-open
range `[offset, offset + limit) = [0, 0)` selects no rows. -/
theorem executeSQL_limit_zero_counterexample :
    executeSQL false "SELECT * FROM T LIMIT 0".toList
        (⟨none, some [(7 : Nat)], false⟩ : DriverResult Nat)
      = ⟨"SELECT * FROM T ".toList, 0, 0, .calls [(none, some [7])]⟩
    ∧ ((([(7 : Nat)] : List Nat).drop 0).take 0) = [] := by
  constructor
  · rfl
  · rfl

/-- C6 (amended): when client-side pagination is active and the SQL text
contains both tokens, `executeSQL` dispatches the text with the tokens
removed, records their numeric values, and — when at least one recorded value
is nonzero — every callback invocation after a successful query carries
exactly the rows in `[offset, offset + limit)` of the driver's row-set. -/
theorem executeSQL_clientside_pagination {Row : Type}
    (sql s1 s2 : List Char) (l o : Nat) (rows : List Row) (more : Bool)
    (hl : stripNumToken limitKW sql = some (l, s1))
    (ho : stripNumToken offsetKW s1 = some (o, s2))
    (hnz : l ≠ 0 ∨ o ≠ 0) :
    executeSQL false sql (⟨none, some rows, more⟩ : DriverResult Row)
      = ⟨s2, l, o, queryCallbacks none (some ((rows.drop o).take l)) more⟩
    ∧ (executeSQL false sql (⟨none, some rows, more⟩ : DriverResult Row)).outcome.eachCall
        (fun call => call = (none, some ((rows.drop o).take l))) := by
  have hbody : execCallbackBody l o (⟨none, some rows, more⟩ : DriverResult Row)
      = queryCallbacks none (some ((rows.drop o).take l)) more := by
    unfold execCallbackBody
    have : o ≠ 0 ∨ l ≠ 0 := hnz.symm
    simp [this]
  have hres : executeSQL false sql (⟨none, some rows, more⟩ : DriverResult Row)
      = ⟨s2, l, o, queryCallbacks none (some ((rows.drop o).take l)) more⟩ := by
    simp only [executeSQL, hl, ho, hbody, Bool.false_eq_true, if_false]
  refine ⟨hres, ?_⟩
  rw [hres]
  unfold queryCallbacks ExecOutcome.eachCall
  cases more <;> simp

/-- Witness for C6 (amended): `LIMIT 2` and `OFFSET 1` are stripped from the
text, and of four rows exactly rows 1 and 2 (zero-based) are delivered. -/
theorem executeSQL_clientside_pagination_witness :
    executeSQL false "SELECT * FROM T LIMIT 2 OFFSET 1".toList
        (⟨none, some [10, 20, 30, 40], false⟩ : DriverResult Nat)
      = ⟨"SELECT * FROM T  ".toList, 2, 1,
          queryCallbacks none (some ((([10, 20, 30, 40] : List Nat).drop 1).take 2)) false⟩
    ∧ (executeSQL false "SELECT * FROM T LIMIT 2 OFFSET 1".toList
        (⟨none, some [10, 20, 30, 40], false⟩ : DriverResult Nat)).outcome.eachCall
        (fun call => call = (none, some ((([10, 20, 30, 40] : List Nat).drop 1).take 2))) :=
  executeSQL_clientside_pagination
    "SELECT * FROM T LIMIT 2 OFFSET 1".toList
    "SELECT * FROM T  OFFSET 1".toList
    "SELECT * FROM T  ".toList
    2 1 [10, 20, 30, 40] false (by decide) (by decide) (by decide)

/-- C10: when the text contains neither a `LIMIT` nor an `OFFSET` token, the
recorded values are both zero, the slicing step is skipped, and a successful
query's row-set reaches the callback unmodified. -/
theorem executeSQL_no_tokens_passthrough {Row : Type}
    (sql : List Char) (rows : List Row)
    (hl : stripNumToken limitKW sql = none)
    (ho : stripNumToken offsetKW sql = none) :
    executeSQL false sql (⟨none, some rows, false⟩ : DriverResult Row)
      = ⟨sql, 0, 0, .calls [(none, some rows)]⟩ := by
  unfold executeSQL
  rw [hl, ho]
  unfold execCallbackBody queryCallbacks
  simp

/-- Witness for C10: a token-free statement returns all three rows untouched. -/
theorem executeSQL_no_tokens_passthrough_witness :
    executeSQL false "SELECT ID FROM T".toList
        (⟨none, some [1, 2, 3], false⟩ : DriverResult Nat)
      = ⟨"SELECT ID FROM T".toList, 0, 0, .calls [(none, some [1, 2, 3])]⟩ :=
  executeSQL_no_tokens_passthrough "SELECT ID FROM T".toList [1, 2, 3]
    (by decide) (by decide)


/-! ## JSON printer/parser round-trip lemmas -/

theorem natToCharsAux_eq : ∀ (f1 n f2 : Nat), n < f1 → n < f2 →
    natToCharsAux f1 n = natToCharsAux f2 n := by
  intro f1
  induction f1 with
  | zero => intro n f2 h; omega
  | succ g ih =>
    intro n f2 h1 h2
    cases f2 with
    | zero => omega
    | succ g2 =>
      simp only [natToCharsAux]
      by_cases h10 : n < 10
      · simp [h10]
      · have hd : n / 10 < n := Nat.div_lt_self (by omega) (by omega)
        simp only [h10, if_false]
        rw [ih (n / 10) g2 (by omega) (by omega)]

theorem natToChars_unfold (n : Nat) :
    natToChars n = if n < 10 then [digitChar n] else natToChars (n / 10) ++ [digitChar (n % 10)] := by
  by_cases h : n < 10
  · simp only [natToChars, natToCharsAux, h, if_true]
  · rw [if_neg h]
    show natToCharsAux (n + 1) n = natToChars (n / 10) ++ [digitChar (n % 10)]
    have step : natToCharsAux (n + 1) n = natToCharsAux n (n / 10) ++ [digitChar (n % 10)] := by
      simp only [natToCharsAux, h, if_false]
    rw [step, natToCharsAux_eq n (n / 10) (n / 10 + 1)
      (by have := Nat.div_lt_self (show 0 < n by omega) (show 1 < 10 by omega); omega)
      (by omega)]
    rfl

theorem digitChar_isDigit (n : Nat) : (digitChar n).isDigit = true := by
  unfold digitChar
  split <;> decide

theorem digitChar_val (n : Nat) (h : n < 10) : (digitChar n).toNat - 48 = n := by
  interval_cases n <;> decide

theorem natToChars_ne_nil (n : Nat) : natToChars n ≠ [] := by
  rw [natToChars_unfold]
  by_cases h : n < 10 <;> simp [h]

theorem natToChars_digits (n : Nat) : ∀ c ∈ natToChars n, Char.isDigit c = true := by
  induction n using Nat.strong_induction_on with
  | _ n ih =>
    rw [natToChars_unfold]
    by_cases h : n < 10
    · simp only [h, if_true, List.mem_singleton]
      rintro c rfl
      exact digitChar_isDigit n
    · have hd : n / 10 < n := Nat.div_lt_self (by omega) (by omega)
      simp only [h, if_false]
      intro c hc
      rcases List.mem_append.mp hc with h1 | h2
      · exact ih _ hd c h1
      · rcases List.mem_singleton.mp h2 with rfl
        exact digitChar_isDigit _

theorem digitsVal_append (xs : List Char) (d : Char) :
    digitsVal (xs ++ [d]) = 10 * digitsVal xs + (d.toNat - 48) := by
  unfold digitsVal
  rw [List.foldl_append]
  simp [Nat.mul_comm]

theorem digitsVal_natToChars (n : Nat) : digitsVal (natToChars n) = n := by
  induction n using Nat.strong_induction_on with
  | _ n ih =>
    rw [natToChars_unfold]
    by_cases h : n < 10
    · simp only [h, if_true]
      show 0 * 10 + ((digitChar n).toNat - 48) = n
      rw [digitChar_val n h]
      omega
    · have hd : n / 10 < n := Nat.div_lt_self (by omega) (by omega)
      simp only [h, if_false]
      rw [digitsVal_append, ih _ hd, digitChar_val (n % 10) (Nat.mod_lt _ (by omega))]
      omega

theorem takeWhile_append_split (p : Char → Bool) (xs : List Char) :
    ∀ ys, (∀ c ∈ xs, p c = true) →
      (∀ y t, ys = y :: t → p y = false) →
      (xs ++ ys).takeWhile p = xs ∧ (xs ++ ys).dropWhile p = ys := by
  induction xs with
  | nil =>
    intro ys _ hy
    cases ys with
    | nil => simp
    | cons y t =>
      have hpy : p y = false := hy y t rfl
      simp only [List.nil_append]
      constructor
      · rw [List.takeWhile_cons]
        simp [hpy]
      · rw [List.dropWhile_cons]
        simp [hpy]
  | cons x xs ih =>
    intro ys hx hy
    have hpx : p x = true := hx x (by simp)
    have hrec := ih ys (fun c hc => hx c (by simp [hc])) hy
    constructor
    · rw [List.cons_append, List.takeWhile_cons]
      simp [hpx, hrec.1]
    · rw [List.cons_append, List.dropWhile_cons]
      simp [hpx, hrec.2]

theorem parseNat_natToChars (n : Nat) (rest : List Char) (h : safeHead rest = true) :
    parseNat (natToChars n ++ rest) = some (n, rest) := by
  have hy : ∀ y t, rest = y :: t → Char.isDigit y = false := by
    intro y t ht
    subst ht
    simpa [safeHead] using h
  have hsplit := takeWhile_append_split Char.isDigit (natToChars n) rest (natToChars_digits n) hy
  have hne := natToChars_ne_nil n
  have hie : ((natToChars n ++ rest).takeWhile Char.isDigit).isEmpty = false := by
    rw [hsplit.1]
    cases hc : natToChars n with
    | nil => exact absurd hc hne
    | cons a as => rfl
  simp only [parseNat, hie, Bool.false_eq_true, if_false]
  rw [hsplit.1, hsplit.2, digitsVal_natToChars]

theorem hexVal_hexDigitChar (n : Nat) (h : n < 16) : hexVal (hexDigitChar n) = some n := by
  interval_cases n <;> decide

theorem parseStrBody_round : ∀ (cs rest : List Char),
    parseStrBody (encodeStrChars cs ++ '"' :: rest) = some (cs, rest) := by
  intro cs
  induction cs with
  | nil =>
    intro rest
    have h0 : encodeStrChars [] = [] := rfl
    rw [h0, List.nil_append, parseStrBody.eq_def]
    simp
  | cons c cs ih =>
    intro rest
    have hexp : encodeStrChars (c :: cs) ++ '"' :: rest
        = escapeChar c ++ (encodeStrChars cs ++ '"' :: rest) := by
      simp [encodeStrChars]
    rw [hexp]
    by_cases h1 : c = '"'
    · subst h1
      rw [show escapeChar '"' = ['\\', '"'] from rfl]
      simp only [List.cons_append, List.nil_append]
      rw [parseStrBody.eq_def]
      simp [ih rest]
    · by_cases h2 : c = '\\'
      · subst h2
        rw [show escapeChar '\\' = ['\\', '\\'] from rfl]
        simp only [List.cons_append, List.nil_append]
        rw [parseStrBody.eq_def]
        simp [ih rest]
      · by_cases h3 : c = '\n'
        · subst h3
          rw [show escapeChar '\n' = ['\\', 'n'] from rfl]
          simp only [List.cons_append, List.nil_append]
          rw [parseStrBody.eq_def]
          simp [ih rest]
        · by_cases h4 : c = '\r'
          · subst h4
            rw [show escapeChar '\r' = ['\\', 'r'] from rfl]
            simp only [List.cons_append, List.nil_append]
            rw [parseStrBody.eq_def]
            simp [ih rest]
          · by_cases h5 : c = '\t'
            · subst h5
              rw [show escapeChar '\t' = ['\\', 't'] from rfl]
              simp only [List.cons_append, List.nil_append]
              rw [parseStrBody.eq_def]
              simp [ih rest]
            · by_cases h6 : c.toNat = 8
              · have hc : c = Char.ofNat 8 := by
                  rw [← Char.ofNat_toNat c, h6]
                subst hc
                rw [show escapeChar (Char.ofNat 8) = ['\\', 'b'] from rfl]
                simp only [List.cons_append, List.nil_append]
                rw [parseStrBody.eq_def]
                simp [ih rest]
              · by_cases h7 : c.toNat = 12
                · have hc : c = Char.ofNat 12 := by
                    rw [← Char.ofNat_toNat c, h7]
                  subst hc
                  rw [show escapeChar (Char.ofNat 12) = ['\\', 'f'] from rfl]
                  simp only [List.cons_append, List.nil_append]
                  rw [parseStrBody.eq_def]
                  simp [ih rest]
                · by_cases h8 : c.toNat < 32
                  · have hesc : escapeChar c
                        = ['\\', 'u', '0', '0', hexDigitChar (c.toNat / 16), hexDigitChar (c.toNat % 16)] := by
                      simp [escapeChar, h1, h2, h3, h4, h5, h6, h7, h8]
                    rw [hesc]
                    have hhi := hexVal_hexDigitChar (c.toNat / 16) (by omega)
                    have hlo := hexVal_hexDigitChar (c.toNat % 16) (by omega)
                    simp only [List.cons_append, List.nil_append]
                    rw [parseStrBody.eq_def]
                    simp [hhi, hlo, ih rest]
                    rw [show hexVal '0' = some 0 from rfl]
                    have hval : Char.ofNat (c.toNat / 16 * 16 + c.toNat % 16) = c := by
                      have harith : c.toNat / 16 * 16 + c.toNat % 16 = c.toNat := by
                        omega
                      rw [harith, Char.ofNat_toNat]
                    simp [hval]
                  · have hesc : escapeChar c = [c] := by
                      simp [escapeChar, h1, h2, h3, h4, h5, h6, h7, h8]
                    rw [hesc]
                    simp only [List.cons_append, List.nil_append]
                    rw [parseStrBody.eq_def]
                    simp [h1, h2, ih rest]

theorem sizeV_pos (v : JsValue) : 1 ≤ sizeV v := by
  cases v <;> simp [sizeV]

theorem sizeL_pos (xs : JsList) : 1 ≤ sizeL xs := by
  cases xs <;> simp [sizeL]

theorem sizeO_pos (kvs : JsObj) : 1 ≤ sizeO kvs := by
  cases kvs <;> simp [sizeO]

theorem mk_toList (s : String) : String.mk s.toList = s := rfl

theorem parseVal_digit (fuel : Nat) (c : Char) (tail : List Char) (h : c.isDigit = true) :
    parseVal (fuel + 1) (c :: tail)
      = match parseNat (c :: tail) with
        | some (n, r) => some (.numV (n : Int), r)
        | none => none := by
  have h1 : ¬ c = 'n' := by rintro rfl; exact absurd h (by decide)
  have h2 : ¬ c = 't' := by rintro rfl; exact absurd h (by decide)
  have h3 : ¬ c = 'f' := by rintro rfl; exact absurd h (by decide)
  have h4 : ¬ c = '"' := by rintro rfl; exact absurd h (by decide)
  have h5 : ¬ c = '[' := by rintro rfl; exact absurd h (by decide)
  have h6 : ¬ c = lbraceC := by rintro rfl; exact absurd h (by decide)
  have h7 : ¬ c = '-' := by rintro rfl; exact absurd h (by decide)
  rw [parseVal.eq_def]
  simp [h1, h2, h3, h4, h5, h6, h7, h]

theorem stringifyV_head (v : JsValue) (a : List Char) (hs : stringifyV v = some a) :
    ∃ c as, a = c :: as ∧ ¬ c = ']' := by
  cases v with
  | nullV =>
    simp [stringifyV] at hs
    exact ⟨'n', _, hs.symm, by decide⟩
  | boolV b =>
    cases b <;> simp [stringifyV] at hs <;>
      exact ⟨_, _, hs.symm, by decide⟩
  | numV i =>
    simp [stringifyV] at hs
    by_cases hneg : i < 0
    · rw [intToChars, if_pos hneg] at hs
      exact ⟨'-', _, hs.symm, by decide⟩
    · rw [intToChars, if_neg hneg] at hs
      obtain ⟨c0, cs0, heq⟩ := List.exists_cons_of_ne_nil (natToChars_ne_nil i.natAbs)
      have hdig : c0.isDigit = true := by
        apply natToChars_digits i.natAbs
        rw [heq]
        simp
      refine ⟨c0, cs0, ?_, ?_⟩
      · rw [← hs, heq]
      · rintro rfl; exact absurd hdig (by decide)
  | nanV => simp [stringifyV] at hs
  | strV s =>
    simp [stringifyV, encodeStr] at hs
    exact ⟨'"', _, hs.symm, by decide⟩
  | arrV xs =>
    simp only [stringifyV] at hs
    rcases Option.map_eq_some'.mp hs with ⟨b, _, hb2⟩
    exact ⟨'[', _, hb2.symm, by decide⟩
  | objV kvs =>
    simp only [stringifyV] at hs
    rcases Option.map_eq_some'.mp hs with ⟨b, _, hb2⟩
    exact ⟨lbraceC, _, hb2.symm, by decide⟩
  | dateV d => simp [stringifyV] at hs
  | hostDate src => simp [stringifyV] at hs

theorem stringifyL_head (x : JsValue) (tl : JsList) (b : List Char)
    (hb : stringifyL (.cons x tl) = some b) : ∃ c bs, b = c :: bs ∧ ¬ c = ']' := by
  cases tl with
  | nil =>
    exact stringifyV_head x b hb
  | cons y tl2 =>
    have hb' : (match stringifyV x, stringifyL (.cons y tl2) with
        | some a, some b2 => some (a ++ ',' :: b2) | _, _ => none) = some b := hb
    cases hA : stringifyV x with
    | none => rw [hA] at hb'; simp at hb'
    | some a1 =>
      cases hB : stringifyL (.cons y tl2) with
      | none => rw [hA, hB] at hb'; simp at hb'
      | some b1 =>
        rw [hA, hB] at hb'
        simp only [Option.some.injEq] at hb'
        obtain ⟨c0, as0, ha0, hc0⟩ := stringifyV_head x a1 hA
        exact ⟨c0, as0 ++ ',' :: b1, by rw [← hb', ha0]; simp, hc0⟩

theorem stringifyO_head (k : String) (v : JsValue) (tl : JsObj) (b : List Char)
    (hb : stringifyO (.cons k v tl) = some b) : ∃ bs, b = '"' :: bs := by
  cases tl with
  | nil =>
    rcases Option.map_eq_some'.mp hb with ⟨a1, _, hb2⟩
    refine ⟨encodeStrChars k.toList ++ '"' :: ':' :: a1, ?_⟩
    rw [← hb2]
    simp [encodeStr]
  | cons k2 v2 tl2 =>
    have hb' : (match stringifyV v, stringifyO (.cons k2 v2 tl2) with
        | some a, some b2 => some ((encodeStr k.toList ++ ':' :: a) ++ ',' :: b2)
        | _, _ => none) = some b := hb
    cases hA : stringifyV v with
    | none => rw [hA] at hb'; simp at hb'
    | some a1 =>
      cases hB : stringifyO (.cons k2 v2 tl2) with
      | none => rw [hA, hB] at hb'; simp at hb'
      | some b1 =>
        rw [hA, hB] at hb'
        simp only [Option.some.injEq] at hb'
        refine ⟨encodeStrChars k.toList ++ '"' :: ':' :: (a1 ++ ',' :: b1), ?_⟩
        rw [← hb']
        simp [encodeStr]

theorem parseVal_minus (fuel : Nat) (tail : List Char) :
    parseVal (fuel + 1) ('-' :: tail)
      = match parseNat tail with
        | some (n, r) => some (.numV (-(n : Int)), r)
        | none => none := by
  rw [parseVal.eq_def]
  simp [show ¬('-' : Char) = lbraceC from by decide]

theorem parseItems_succ (fuel : Nat) (s : List Char) :
    parseItems (fuel + 1) s
      = match parseVal fuel s with
        | none => none
        | some (v, rest) =>
          match rest with
          | [] => none
          | c :: r2 =>
            if c = ',' then (parseItems fuel r2).map (fun p => (.cons v p.1, p.2))
            else if c = ']' then some (.cons v .nil, r2) else none := rfl

theorem parseMembers_succ (fuel : Nat) (s : List Char) :
    parseMembers (fuel + 1) s
      = match s with
        | '"' :: rest =>
          match parseStrBody rest with
          | none => none
          | some (k, r1) =>
            match r1 with
            | ':' :: r2 =>
              match parseVal fuel r2 with
              | none => none
              | some (v, r3) =>
                match r3 with
                | [] => none
                | c :: r4 =>
                  if c = ',' then (parseMembers fuel r4).map (fun p => (.cons (String.mk k) v p.1, p.2))
                  else if c = rbraceC then some (.cons (String.mk k) v .nil, r4)
                  else none
            | _ => none
        | _ => none := rfl

theorem parse_round : ∀ fuel : Nat,
    (∀ v a rest, stringifyV v = some a → sizeV v ≤ fuel → safeHead rest = true →
        parseVal fuel (a ++ rest) = some (v, rest))
    ∧ (∀ x tl b rest, stringifyL (.cons x tl) = some b → sizeL (.cons x tl) ≤ fuel →
        parseItems fuel (b ++ ']' :: rest) = some (.cons x tl, rest))
    ∧ (∀ k v tl b rest, stringifyO (.cons k v tl) = some b → sizeO (.cons k v tl) ≤ fuel →
        parseMembers fuel (b ++ rbraceC :: rest) = some (.cons k v tl, rest)) := by
  intro fuel
  induction fuel with
  | zero =>
    refine ⟨?_, ?_, ?_⟩
    · intro v a rest _ hsize _
      have := sizeV_pos v
      omega
    · intro x tl b rest _ hsize
      have := sizeL_pos (.cons x tl)
      omega
    · intro k v tl b rest _ hsize
      have := sizeO_pos (.cons k v tl)
      omega
  | succ fuel ih =>
    obtain ⟨ihV, ihL, ihO⟩ := ih
    refine ⟨?_, ?_, ?_⟩
    · intro v a rest hs hsize hsafe
      cases v with
      | nullV =>
        simp only [stringifyV, Option.some.injEq] at hs
        subst hs
        rw [parseVal.eq_def]
        simp
      | boolV b =>
        cases b <;>
          (simp only [stringifyV, Option.some.injEq] at hs
           subst hs
           rw [parseVal.eq_def]
           simp)
      | numV i =>
        simp only [stringifyV, Option.some.injEq] at hs
        subst hs
        by_cases hneg : i < 0
        · rw [intToChars, if_pos hneg, List.cons_append, parseVal_minus,
            parseNat_natToChars _ _ hsafe]
          show some (JsValue.numV (-(i.natAbs : Int)), rest) = some (.numV i, rest)
          rw [show -(i.natAbs : Int) = i from by omega]
        · rw [intToChars, if_neg hneg]
          obtain ⟨c0, cs0, heq⟩ := List.exists_cons_of_ne_nil (natToChars_ne_nil i.natAbs)
          have hdig : c0.isDigit = true := natToChars_digits i.natAbs c0 (by rw [heq]; simp)
          rw [heq, List.cons_append, parseVal_digit fuel c0 _ hdig, ← List.cons_append, ← heq,
            parseNat_natToChars _ _ hsafe]
          show some (JsValue.numV ((i.natAbs : Nat) : Int), rest) = some (.numV i, rest)
          rw [show ((i.natAbs : Nat) : Int) = i from by omega]
      | nanV => simp [stringifyV] at hs
      | strV s =>
        simp only [stringifyV, Option.some.injEq] at hs
        subst hs
        rw [show encodeStr s.toList ++ rest
            = '"' :: (encodeStrChars s.toList ++ '"' :: rest) from by simp [encodeStr]]
        rw [parseVal.eq_def]
        simp [parseStrBody_round, mk_toList]
      | arrV xs =>
        simp only [stringifyV] at hs
        rcases Option.map_eq_some'.mp hs with ⟨b, hb, rfl⟩
        cases xs with
        | nil =>
          simp only [stringifyL, Option.some.injEq] at hb
          subst hb
          rw [parseVal.eq_def]
          simp
        | cons x tl =>
          obtain ⟨c0, bs, hbeq, hc0⟩ := stringifyL_head x tl b hb
          have hsz : sizeL (.cons x tl) ≤ fuel := by
            simp only [sizeV] at hsize
            omega
          have hitems := ihL x tl b rest hb hsz
          rw [parseVal.eq_def]
          have hshape : ('[' :: (b ++ [']'])) ++ rest = '[' :: (c0 :: (bs ++ ']' :: rest)) := by
            rw [hbeq]
            simp
          rw [hshape]
          simp only [show ¬('[' : Char) = 'n' from by decide,
            show ¬('[' : Char) = 't' from by decide,
            show ¬('[' : Char) = 'f' from by decide,
            show ¬('[' : Char) = '"' from by decide, if_neg, if_pos, if_false]
          rw [if_neg hc0]
          rw [show c0 :: (bs ++ ']' :: rest) = b ++ ']' :: rest from by rw [hbeq]; simp]
          rw [hitems]
          rfl
      | objV kvs =>
        simp only [stringifyV] at hs
        rcases Option.map_eq_some'.mp hs with ⟨b, hb, rfl⟩
        cases kvs with
        | nil =>
          simp only [stringifyO, Option.some.injEq] at hb
          subst hb
          rw [show (lbraceC :: (([] : List Char) ++ [rbraceC])) ++ rest
              = lbraceC :: rbraceC :: rest from by simp]
          rw [parseVal.eq_def]
          simp only [show ¬lbraceC = 'n' from by decide,
            show ¬lbraceC = 't' from by decide,
            show ¬lbraceC = 'f' from by decide,
            show ¬lbraceC = '"' from by decide,
            show ¬lbraceC = '[' from by decide, if_neg, if_false]
          simp only [show (lbraceC = lbraceC) = True from by simp, if_true]
        | cons k v tl =>
          obtain ⟨bs, hbeq⟩ := stringifyO_head k v tl b hb
          have hsz : sizeO (.cons k v tl) ≤ fuel := by
            simp only [sizeV] at hsize
            omega
          have hmem := ihO k v tl b rest hb hsz
          rw [parseVal.eq_def]
          have hshape : (lbraceC :: (b ++ [rbraceC])) ++ rest
              = lbraceC :: ('"' :: (bs ++ rbraceC :: rest)) := by
            rw [hbeq]
            simp
          rw [hshape]
          simp only [show ¬lbraceC = 'n' from by decide,
            show ¬lbraceC = 't' from by decide,
            show ¬lbraceC = 'f' from by decide,
            show ¬lbraceC = '"' from by decide,
            show ¬lbraceC = '[' from by decide, if_neg, if_false]
          simp only [show (lbraceC = lbraceC) = True from by simp, if_true]
          rw [if_neg (show ¬('"' : Char) = rbraceC from by decide)]
          rw [show ('"' : Char) :: (bs ++ rbraceC :: rest) = b ++ rbraceC :: rest from by
            rw [hbeq]; simp]
          rw [hmem]
          rfl
      | dateV d => simp [stringifyV] at hs
      | hostDate src => simp [stringifyV] at hs
    · intro x tl b rest hs hsize
      rw [parseItems_succ]
      cases tl with
      | nil =>
        have hb : stringifyV x = some b := hs
        have hszx : sizeV x ≤ fuel := by
          simp only [sizeL] at hsize
          omega
        rw [ihV x b (']' :: rest) hb hszx rfl]
        simp
      | cons y tl2 =>
        have hs' : (match stringifyV x, stringifyL (.cons y tl2) with
            | some a, some b2 => some (a ++ ',' :: b2) | _, _ => none) = some b := hs
        cases hA : stringifyV x with
        | none => rw [hA] at hs'; simp at hs'
        | some a1 =>
          cases hB : stringifyL (.cons y tl2) with
          | none => rw [hA, hB] at hs'; simp at hs'
          | some b1 =>
            rw [hA, hB] at hs'
            simp only [Option.some.injEq] at hs'
            subst hs'
            have hszx : sizeV x ≤ fuel := by
              simp only [sizeL] at hsize
              have := sizeL_pos tl2
              have := sizeV_pos y
              omega
            have hszl : sizeL (.cons y tl2) ≤ fuel := by
              simp only [sizeL] at hsize ⊢
              have := sizeV_pos x
              omega
            rw [show (a1 ++ ',' :: b1) ++ ']' :: rest = a1 ++ ',' :: (b1 ++ ']' :: rest) from by
              simp]
            rw [ihV x a1 (',' :: (b1 ++ ']' :: rest)) hA hszx rfl]
            simp only [show ((',' : Char) = ',') = True from by simp, if_true]
            rw [ihL y tl2 b1 rest hB hszl]
            rfl
    · intro k v tl b rest hs hsize
      rw [parseMembers_succ]
      cases tl with
      | nil =>
        rcases Option.map_eq_some'.mp hs with ⟨a1, hA, hb2⟩
        subst hb2
        have hszv : sizeV v ≤ fuel := by
          simp only [sizeO] at hsize
          omega
        rw [show (encodeStr k.toList ++ ':' :: a1) ++ rbraceC :: rest
            = '"' :: (encodeStrChars k.toList ++ '"' :: (':' :: (a1 ++ rbraceC :: rest))) from by
          simp [encodeStr]]
        simp only [parseStrBody_round]
        rw [ihV v a1 (rbraceC :: rest) hA hszv rfl]
        simp only [show ¬rbraceC = ',' from by decide, if_neg, if_false]
        simp only [show (rbraceC = rbraceC) = True from by simp, if_true, mk_toList]
      | cons k2 v2 tl2 =>
        have hs' : (match stringifyV v, stringifyO (.cons k2 v2 tl2) with
            | some a, some b2 => some ((encodeStr k.toList ++ ':' :: a) ++ ',' :: b2)
            | _, _ => none) = some b := hs
        cases hA : stringifyV v with
        | none => rw [hA] at hs'; simp at hs'
        | some a1 =>
          cases hB : stringifyO (.cons k2 v2 tl2) with
          | none => rw [hA, hB] at hs'; simp at hs'
          | some b1 =>
            rw [hA, hB] at hs'
            simp only [Option.some.injEq] at hs'
            subst hs'
            have hszv : sizeV v ≤ fuel := by
              simp only [sizeO] at hsize
              have := sizeO_pos tl2
              have := sizeV_pos v2
              omega
            have hszo : sizeO (.cons k2 v2 tl2) ≤ fuel := by
              simp only [sizeO] at hsize ⊢
              have := sizeV_pos v
              omega
            rw [show ((encodeStr k.toList ++ ':' :: a1) ++ ',' :: b1) ++ rbraceC :: rest
                = '"' :: (encodeStrChars k.toList ++ '"'
                    :: (':' :: (a1 ++ ',' :: (b1 ++ rbraceC :: rest)))) from by
              simp [encodeStr]]
            simp only [parseStrBody_round]
            rw [ihV v a1 (',' :: (b1 ++ rbraceC :: rest)) hA hszv rfl]
            simp only [show ((',' : Char) = ',') = True from by simp, if_true]
            rw [ihO k2 v2 tl2 b1 rest hB hszo]
            simp [mk_toList]

theorem intToChars_ne_nil (i : Int) : intToChars i ≠ [] := by
  unfold intToChars
  by_cases h : i < 0
  · simp [h]
  · simp [h, natToChars_ne_nil]

theorem stringify_bound : ∀ n : Nat,
    (∀ v a, sizeV v ≤ n → stringifyV v = some a → sizeV v + 1 ≤ 2 * a.length)
    ∧ (∀ x tl b, sizeL (.cons x tl) ≤ n → stringifyL (.cons x tl) = some b →
        sizeL (.cons x tl) + 1 ≤ 2 * b.length + 2)
    ∧ (∀ k v tl b, sizeO (.cons k v tl) ≤ n → stringifyO (.cons k v tl) = some b →
        sizeO (.cons k v tl) + 1 ≤ 2 * b.length) := by
  intro n
  induction n with
  | zero =>
    refine ⟨?_, ?_, ?_⟩
    · intro v a hn _
      have := sizeV_pos v
      omega
    · intro x tl b hn _
      have := sizeL_pos (.cons x tl)
      omega
    · intro k v tl b hn _
      have := sizeO_pos (.cons k v tl)
      omega
  | succ n ih =>
    obtain ⟨ihV, ihL, ihO⟩ := ih
    refine ⟨?_, ?_, ?_⟩
    · intro v a hn h
      cases v with
      | nullV =>
        simp only [stringifyV, Option.some.injEq] at h
        subst h
        simp [sizeV]
      | boolV b =>
        cases b <;>
          (simp only [stringifyV, Option.some.injEq] at h
           subst h
           simp [sizeV])
      | numV i =>
        simp only [stringifyV, Option.some.injEq] at h
        subst h
        have := List.length_pos.mpr (intToChars_ne_nil i)
        simp only [sizeV]
        omega
      | nanV => simp [stringifyV] at h
      | strV str =>
        simp only [stringifyV, Option.some.injEq] at h
        subst h
        simp only [sizeV, encodeStr]
        simp
      | arrV xs =>
        cases xs with
        | nil =>
          simp only [stringifyV, stringifyL, Option.map_some', Option.some.injEq] at h
          subst h
          simp [sizeV, sizeL]
        | cons x tl =>
          simp only [stringifyV] at h
          rcases Option.map_eq_some'.mp h with ⟨b, hb, rfl⟩
          have hsz : sizeL (.cons x tl) ≤ n := by
            simp only [sizeV] at hn
            omega
          have := ihL x tl b hsz hb
          simp only [sizeV]
          simp
          omega
      | objV kvs =>
        cases kvs with
        | nil =>
          simp only [stringifyV, stringifyO, Option.map_some', Option.some.injEq] at h
          subst h
          simp [sizeV, sizeO]
        | cons k v tl =>
          simp only [stringifyV] at h
          rcases Option.map_eq_some'.mp h with ⟨b, hb, rfl⟩
          have hsz : sizeO (.cons k v tl) ≤ n := by
            simp only [sizeV] at hn
            omega
          have := ihO k v tl b hsz hb
          simp only [sizeV]
          simp
          omega
      | dateV d => simp [stringifyV] at h
      | hostDate src => simp [stringifyV] at h
    · intro x tl b hn h
      cases tl with
      | nil =>
        have hb : stringifyV x = some b := h
        have hsz : sizeV x ≤ n := by
          simp only [sizeL] at hn
          omega
        have := ihV x b hsz hb
        simp only [sizeL]
        omega
      | cons y tl2 =>
        have h' : (match stringifyV x, stringifyL (.cons y tl2) with
            | some a, some b2 => some (a ++ ',' :: b2) | _, _ => none) = some b := h
        cases hA : stringifyV x with
        | none => rw [hA] at h'; simp at h'
        | some a1 =>
          cases hB : stringifyL (.cons y tl2) with
          | none => rw [hA, hB] at h'; simp at h'
          | some b1 =>
            rw [hA, hB] at h'
            simp only [Option.some.injEq] at h'
            subst h'
            have hsx : sizeV x ≤ n := by
              simp only [sizeL] at hn
              have := sizeL_pos tl2
              have := sizeV_pos y
              omega
            have hsl : sizeL (.cons y tl2) ≤ n := by
              simp only [sizeL] at hn ⊢
              have := sizeV_pos x
              omega
            have h1 := ihV x a1 hsx hA
            have h2 := ihL y tl2 b1 hsl hB
            simp only [sizeL] at h2 ⊢
            simp
            omega
    · intro k v tl b hn h
      cases tl with
      | nil =>
        rcases Option.map_eq_some'.mp h with ⟨a1, hA, hb2⟩
        subst hb2
        have hsz : sizeV v ≤ n := by
          simp only [sizeO] at hn
          omega
        have := ihV v a1 hsz hA
        simp only [sizeO, encodeStr]
        simp
        omega
      | cons k2 v2 tl2 =>
        have h' : (match stringifyV v, stringifyO (.cons k2 v2 tl2) with
            | some a, some b2 => some ((encodeStr k.toList ++ ':' :: a) ++ ',' :: b2)
            | _, _ => none) = some b := h
        cases hA : stringifyV v with
        | none => rw [hA] at h'; simp at h'
        | some a1 =>
          cases hB : stringifyO (.cons k2 v2 tl2) with
          | none => rw [hA, hB] at h'; simp at h'
          | some b1 =>
            rw [hA, hB] at h'
            simp only [Option.some.injEq] at h'
            subst h'
            have hsv : sizeV v ≤ n := by
              simp only [sizeO] at hn
              have := sizeO_pos tl2
              have := sizeV_pos v2
              omega
            have hso : sizeO (.cons k2 v2 tl2) ≤ n := by
              simp only [sizeO] at hn ⊢
              have := sizeV_pos v
              omega
            have h1 := ihV v a1 hsv hA
            have h2 := ihO k2 v2 tl2 b1 hso hB
            simp only [sizeO, encodeStr] at h2 ⊢
            simp
            omega

theorem sv_bound (v : JsValue) (a : List Char) (h : stringifyV v = some a) :
    sizeV v + 1 ≤ 2 * a.length :=
  (stringify_bound (sizeV v)).1 v a le_rfl h

theorem jsonParse_stringify (v : JsValue) (a : List Char) (h : stringifyV v = some a) :
    jsonParseChars a = some v := by
  have hb := sv_bound v a h
  have hr := (parse_round (2 * a.length + 2)).1 v a [] h (by omega) rfl
  unfold jsonParseChars
  rw [List.append_nil] at hr
  rw [hr]

theorem toList_mk (cs : List Char) : (String.mk cs).toList = cs := rfl


theorem append_eq_empty_iff (a b : String) : a ++ b = "" ↔ a = "" ∧ b = "" := by
  constructor
  · intro h
    obtain ⟨da⟩ := a
    obtain ⟨db⟩ := b
    have hd : da ++ db = [] := congrArg String.data h
    rcases List.append_eq_nil.mp hd with ⟨rfl, rfl⟩
    exact ⟨rfl, rfl⟩
  · rintro ⟨rfl, rfl⟩
    rfl

theorem updateSetList_sqls (fields : List MergeField) :
    (updateSetList fields).map PSQL.sql
      = (fields.filter (fun f => !f.isId)).map (fun f => f.name ++ "=(" ++ f.valueSql ++ ")") := by
  induction fields with
  | nil => rfl
  | cons f rest ih =>
    by_cases hid : f.isId <;> simp [updateSetList, hid, ih]

/-- C3 (amended): the column-value round trip
`fromColumnValue(p, toColumnValue(p, v))` recovers `v` for Number, String and
Boolean properties and for the composite types both directions serialize via
JSON (Object, List, GeoPoint, Point), with structural equality after the JSON
round trip.  (The Array and JSON branches, included in the original claim, do
not round-trip — see the counterexample — and Date values are re-parsed by the
host `Date` constructor rather than by an inverse of the literal encoder.) -/
theorem columnRoundTrip_recovers (p : PropDef) (v : JsValue)
    (h : (p.typeName = .Number ∧ (∃ n, v = .numV n))
       ∨ (p.typeName = .String ∧ (∃ s, v = .strV s))
       ∨ (p.typeName = .Boolean ∧ (∃ b, v = .boolV b))
       ∨ ((p.typeName = .Object ∨ p.typeName = .List ∨ p.typeName = .GeoPoint ∨ p.typeName = .Point)
           ∧ v ≠ .nullV ∧ (stringifyV v).isSome = true)) :
    columnRoundTrip p v = some v := by
  obtain ⟨t, ai, idf⟩ := p
  rcases h with ⟨ht, n, rfl⟩ | ⟨ht, str, rfl⟩ | ⟨ht, b, rfl⟩ | ⟨ht, hnn, hsome⟩
  · simp only at ht
    subst ht
    rfl
  · simp only at ht
    subst ht
    rfl
  · simp only at ht
    subst ht
    cases b <;> rfl
  · obtain ⟨cs, hcs⟩ := Option.isSome_iff_exists.mp hsome
    have hparse := jsonParse_stringify v cs hcs
    simp only at ht
    rcases ht with rfl | rfl | rfl | rfl <;>
      (cases v with
       | nullV => exact absurd rfl hnn
       | _ =>
         simp only [columnRoundTrip, toColumnValue, hcs, fromColumnValue, jsToString,
           toList_mk]
         exact hparse)

/-- Witness for C3 (amended): an Object-typed property holding the object
with one key "a" mapping to 1 survives the round trip. -/
theorem columnRoundTrip_recovers_witness :
    columnRoundTrip ⟨.Object, false, false⟩ (.objV (.cons "a" (.numV 1) .nil))
      = some (.objV (.cons "a" (.numV 1) .nil)) :=
  columnRoundTrip_recovers ⟨.Object, false, false⟩ (.objV (.cons "a" (.numV 1) .nil))
    (Or.inr (Or.inr (Or.inr ⟨Or.inl rfl, fun h => JsValue.noConfusion h, rfl⟩)))

/-- C3 counterexample: the claim fails on the code for Array-typed properties:
`toColumnValue` passes the array `[5]` through unserialized (the `Array` case
shares the pass-through branch with Number/String) while `fromColumnValue`
applies `JSON.parse`, whose string coercion of `[5]` is "5", so the round trip
yields the number 5 rather than `[5]`.  A JSON-typed property holding an
object likewise fails: `String(val)` gives "[object Object]", which
`JSON.parse` rejects (a thrown error, modelled by `none`). -/
theorem columnRoundTrip_array_counterexample :
    columnRoundTrip ⟨.Array, false, false⟩ (.arrV (.cons (.numV 5) .nil)) = some (.numV 5)
    ∧ JsValue.numV 5 ≠ .arrV (.cons (.numV 5) .nil)
    ∧ columnRoundTrip ⟨.JSON, false, false⟩ (.objV (.cons "a" (.numV 1) .nil)) = none := by
  refine ⟨rfl, ?_, rfl⟩
  intro h
  cases h

/-- C9: for a model with at least one persisted field, the `updateOrCreate`
MERGE statement matches candidate (VT) and target (MT) on the id column —
the `ON (MT."id" = VT."id")` clause — and its `WHEN MATCHED THEN UPDATE SET`
clause assigns exactly the supplied fields that are not flagged as id
columns. -/
theorem updateOrCreate_merge_clauses (schema tableEsc id : String) (allCols : List String)
    (fields : List MergeField) (defaultValues : String) (hne : fields ≠ []) :
    (updateOrCreateStmt schema tableEsc id allCols fields defaultValues).sql
      = "MERGE INTO " ++ schema ++ "." ++ tableEsc ++ " " ++ "AS MT(" ++ " "
        ++ String.intercalate "," allCols ++ " " ++ ")" ++ " "
        ++ "USING (SELECT * FROM TABLE( VALUES(" ++ " "
        ++ String.intercalate " " ((castList fields).map PSQL.sql) ++ " "
        ++ ("))) AS VT(" ++ String.intercalate "," (fields.map MergeField.name) ++ ")") ++ " "
        ++ "ON" ++ " "
        ++ ("(MT.\"" ++ id ++ "\" = VT.\"" ++ id ++ "\")") ++ " "
        ++ ("WHEN NOT MATCHED THEN INSERT ("
            ++ String.intercalate "," (fields.map MergeField.name) ++ ")") ++ " "
        ++ ("VALUES(" ++ String.intercalate "," (fields.map MergeField.valueSql) ++ ")") ++ " "
        ++ "WHEN MATCHED THEN UPDATE SET" ++ " "
        ++ String.intercalate "," ((fields.filter (fun f => !f.isId)).map
            (fun f => f.name ++ "=(" ++ f.valueSql ++ ")")) := by
  have hlen : fields.length ≠ 0 := by
    simpa [List.length_eq_zero] using hne
  simp only [updateOrCreateStmt]
  rw [if_pos hlen]
  simp [PSQL.mergeSp, PSQL.mergeWith, psqlJoin, append_eq_empty_iff, updateSetList_sqls,
    List.map_map, Function.comp_def]

/-- Witness for C9: a model with an id field and a name field; the generated
text matches on `MT."id" = VT."id"` and the update-set list assigns only the
name column. -/
theorem updateOrCreate_merge_clauses_witness :
    (updateOrCreateStmt "U1" "\"CUSTOMER\"" "id" ["\"id\"", "\"name\""]
        [⟨"\"id\"", true, "(?)", ["5"], "INTEGER"⟩,
         ⟨"\"name\"", false, "(?)", ["a"], "VARCHAR(512)"⟩]
        "VALUES(DEFAULT,DEFAULT)").sql
      = "MERGE INTO " ++ "U1" ++ "." ++ "\"CUSTOMER\"" ++ " " ++ "AS MT(" ++ " "
        ++ String.intercalate "," ["\"id\"", "\"name\""] ++ " " ++ ")" ++ " "
        ++ "USING (SELECT * FROM TABLE( VALUES(" ++ " "
        ++ String.intercalate " " ((castList
            [⟨"\"id\"", true, "(?)", ["5"], "INTEGER"⟩,
             ⟨"\"name\"", false, "(?)", ["a"], "VARCHAR(512)"⟩]).map PSQL.sql) ++ " "
        ++ ("))) AS VT(" ++ String.intercalate ","
              (([⟨"\"id\"", true, "(?)", ["5"], "INTEGER"⟩,
                 ⟨"\"name\"", false, "(?)", ["a"], "VARCHAR(512)"⟩] : List MergeField).map
                MergeField.name) ++ ")") ++ " "
        ++ "ON" ++ " "
        ++ ("(MT.\"" ++ "id" ++ "\" = VT.\"" ++ "id" ++ "\")") ++ " "
        ++ ("WHEN NOT MATCHED THEN INSERT ("
            ++ String.intercalate ","
              (([⟨"\"id\"", true, "(?)", ["5"], "INTEGER"⟩,
                 ⟨"\"name\"", false, "(?)", ["a"], "VARCHAR(512)"⟩] : List MergeField).map
                MergeField.name) ++ ")") ++ " "
        ++ ("VALUES(" ++ String.intercalate ","
              (([⟨"\"id\"", true, "(?)", ["5"], "INTEGER"⟩,
                 ⟨"\"name\"", false, "(?)", ["a"], "VARCHAR(512)"⟩] : List MergeField).map
                MergeField.valueSql) ++ ")") ++ " "
        ++ "WHEN MATCHED THEN UPDATE SET" ++ " "
        ++ String.intercalate ","
            ((([⟨"\"id\"", true, "(?)", ["5"], "INTEGER"⟩,
                ⟨"\"name\"", false, "(?)", ["a"], "VARCHAR(512)"⟩] : List MergeField).filter
                (fun f => !f.isId)).map (fun f => f.name ++ "=(" ++ f.valueSql ++ ")")) :=
  updateOrCreate_merge_clauses "U1" "\"CUSTOMER\"" "id" ["\"id\"", "\"name\""]
    [⟨"\"id\"", true, "(?)", ["5"], "INTEGER"⟩,
     ⟨"\"name\"", false, "(?)", ["a"], "VARCHAR(512)"⟩]
    "VALUES(DEFAULT,DEFAULT)" (fun h => List.noConfusion h)

end InformixConn
